import Mathlib

/-!
Verification of the streaming transcript aggregator of founder-os.

The source of truth is the index-tracking aggregator in the runtime
provider (the `onNew` event handlers over `contentItems` and
`currentTextIndex`, the `buildContent` helper, and
`convertTurnToMessages`).  Pure mutation-free translations of those
handlers are given below, followed by theorems about the claims.
-/

namespace FounderOS

/-- JSON values, the payloads carried by stream events and by stored
assistant block arrays.  (Field access on an object returns `none` for a
missing key, the analogue of `undefined`.) -/
inductive Json where
  | null : Json
  | bool (b : Bool) : Json
  | num (n : Int) : Json
  | str (s : String) : Json
  | arr (xs : List Json) : Json
  | obj (fields : List (String × Json)) : Json

/-- JavaScript truthiness of a JSON value (`data.input || {}`). -/
def Json.truthy : Json → Bool
  | .null => false
  | .bool b => b
  | .num n => n != 0
  | .str s => s != ""
  | .arr _ => true
  | .obj _ => true

mutual

/-- Model of the host `JSON.stringify` on JSON values (used for the
`argsText` field).  The exact output format is irrelevant to every claim:
all that matters is that live aggregation and replay call the same
serializer. -/
def Json.stringify : Json → String
  | .null => "null"
  | .bool b => cond b "true" "false"
  | .num n => toString n
  | .str s => "\x22" ++ s ++ "\x22"
  | .arr xs => "[" ++ Json.stringifyArr xs ++ "]"
  | .obj fs => "\x7b" ++ Json.stringifyObj fs ++ "\x7d"

def Json.stringifyArr : List Json → String
  | [] => ""
  | [x] => Json.stringify x
  | x :: y :: xs => Json.stringify x ++ "," ++ Json.stringifyArr (y :: xs)

def Json.stringifyObj : List (String × Json) → String
  | [] => ""
  | [(k, v)] => "\x22" ++ k ++ "\x22:" ++ Json.stringify v
  | (k, v) :: f :: fs =>
      "\x22" ++ k ++ "\x22:" ++ Json.stringify v ++ "," ++ Json.stringifyObj (f :: fs)

end

/-- One entry of the `contentItems` accumulator: the TypeScript
`ContentItem` union (`{ type: "text"; text }` or the tool-call record
with `toolCallId`, `toolName`, `args`, `argsText`, optional `result`
and `isError`).  `none` for `result`/`isError` is `undefined`. -/
inductive ContentItem where
  | text (t : String) : ContentItem
  | toolCall (toolCallId : String) (toolName : String) (args : Json)
      (argsText : String) (result : Option Json) (isError : Option Json) : ContentItem

/-- Stream events consumed by the `onNew` handlers.  Optional payload
fields model absent (`undefined`) JSON fields. -/
inductive Event where
  | textDelta (content : String) : Event
  | toolCall (id : String) (name : String) (input : Option Json) : Event
  | toolResult (toolUseId : String) (content : Option Json) (isError : Option Json) : Event
  | text (content : String) : Event

/-- Status of the in-progress assistant message. -/
inductive TurnStatus where
  | running : TurnStatus
  | complete : TurnStatus
  | error : TurnStatus
deriving DecidableEq, Repr

/-- The aggregator's per-turn state: the `contentItems` array, the
`currentTextIndex` cursor, the message status, and whether the event
source has been closed (after the terminal `text` event no further
events are delivered). -/
structure AggState where
  contentItems : List ContentItem
  currentTextIndex : Option Nat
  status : TurnStatus
  closed : Bool

/-- State at the start of a turn: no accumulated items, no current text
block, status `running` (the streaming placeholder message). -/
def initState : AggState :=
  { contentItems := [], currentTextIndex := none, status := .running, closed := false }

/-- Model of `contentItems.push({type:"text", text: c})` together with
`currentTextIndex = contentItems.length` (the new-text-block path of the
`text_delta` handler). -/
def pushNewText (s : AggState) (c : String) : AggState :=
  { s with currentTextIndex := some s.contentItems.length,
           contentItems := s.contentItems ++ [.text c] }

/-- The `text_delta` handler: append to the current text block when
`currentTextIndex` points at a text item, otherwise open a new one. -/
def stepTextDelta (s : AggState) (c : String) : AggState :=
  match s.currentTextIndex with
  | some i =>
    match s.contentItems[i]? with
    | some (.text t) => { s with contentItems := s.contentItems.set i (.text (t ++ c)) }
    | _ => pushNewText s c
  | none => pushNewText s c

/-- The freshly registered tool-call item pushed by the `tool_call`
handler: `input = data.input || {}`, `argsText = JSON.stringify(input)`,
no result. -/
def mkToolItem (id name : String) (input : Option Json) : ContentItem :=
  let inputVal : Json :=
    match input with
    | some j => if j.truthy then j else Json.obj []
    | none => Json.obj []
  .toolCall id name inputVal (Json.stringify inputVal) none none

/-- The `tool_call` handler: reset `currentTextIndex` and push the new
tool-call item.  (The handler performs no duplicate-`callId` check.) -/
def stepToolCall (s : AggState) (id name : String) (input : Option Json) : AggState :=
  { s with currentTextIndex := none,
           contentItems := s.contentItems ++ [mkToolItem id name input] }

/-- Model of `contentItems.find(item => item.type === "tool-call" && item.toolCallId
=== tool_use_id)` followed by the in-place `result`/`isError` assignment:
update the first matching tool-call item, leave everything else alone. -/
def setResult : List ContentItem → String → Option Json → Option Json → List ContentItem
  | [], _, _, _ => []
  | .text t :: rest, tid, c, e => .text t :: setResult rest tid c e
  | .toolCall id n a atx r ie :: rest, tid, c, e =>
      if id = tid then .toolCall id n a atx c e :: rest
      else .toolCall id n a atx r ie :: setResult rest tid c e

/-- The `tool_result` handler. -/
def stepToolResult (s : AggState) (tid : String) (c e : Option Json) : AggState :=
  { s with contentItems := setResult s.contentItems tid c e }

/-- Index of the last text item (`contentItems.findLastIndex(item =>
item.type === "text")`), `none` when there is none. -/
def findLastTextIdx : List ContentItem → Option Nat
  | [] => none
  | .text _ :: rest =>
      match findLastTextIdx rest with
      | some i => some (i + 1)
      | none => some 0
  | .toolCall _ _ _ _ _ _ :: rest =>
      match findLastTextIdx rest with
      | some i => some (i + 1)
      | none => none

/-- The terminal `text` handler: when `data.content` is truthy (a
non-empty string) overwrite the last text item, or push one when none
exists; in every case mark the message complete and close the stream. -/
def stepText (s : AggState) (c : String) : AggState :=
  let items :=
    if c ≠ "" then
      match findLastTextIdx s.contentItems with
      | some i => s.contentItems.set i (.text c)
      | none => s.contentItems ++ [.text c]
    else s.contentItems
  { s with contentItems := items, status := .complete, closed := true }

/-- One step of the event fold.  After the event source is closed (the
terminal `text` handler called `eventSource.close()`) no further events
are delivered, so they leave the state unchanged. -/
def applyEvent (s : AggState) (e : Event) : AggState :=
  if s.closed then s
  else
    match e with
    | .textDelta c => stepTextDelta s c
    | .toolCall id name input => stepToolCall s id name input
    | .toolResult tid c ie => stepToolResult s tid c ie
    | .text c => stepText s c

/-- Folding a turn's whole event sequence from the fresh state. -/
def runEvents (evts : List Event) : AggState :=
  evts.foldl applyEvent initState

/-- The `buildContent` helper: the accumulated items, or a single empty
text block when none have been accumulated yet. -/
def buildContent (items : List ContentItem) : List ContentItem :=
  match items with
  | [] => [.text ""]
  | _ => items

/-- A snapshot as the rendering layer sees it: the built content array
and the message status. -/
structure Snapshot where
  blocks : List ContentItem
  status : TurnStatus

/-- The snapshot of a state. -/
def snapshotOf (s : AggState) : Snapshot :=
  { blocks := buildContent s.contentItems, status := s.status }

/-- Association-list lookup on a JSON object's fields. -/
def jlookup : List (String × Json) → String → Option Json
  | [], _ => none
  | (k, v) :: fs, key => if k = key then some v else jlookup fs key

/-- JavaScript property access `b[k]` on a non-null value: the field on
an object, `undefined` (`none`) on any other value.  (Access on `null`
throws a `TypeError`; `convertBlock` handles that case separately.) -/
def jsField : Json → String → Option Json
  | .obj fs, k => jlookup fs k
  | _, _ => none

/-- The test `block.type === "text"`: true exactly for the string `"text"`. -/
def isTextType : Option Json → Bool
  | some (.str s) => s = "text"
  | _ => false

/-- A display content entry produced by `convertTurnToMessages` (the
assistant-ui message content).  Fields read off parsed JSON may be
absent (`undefined`), hence the `Option`s; `argsText` is
`JSON.stringify(block.input)`, which is `undefined` when `input` is. -/
inductive RContent where
  | text (t : Option Json) : RContent
  | toolCall (toolCallId toolName args : Option Json) (argsText : Option String)
      (result isError : Option Json) : RContent

/-- Whether a JSON value is `null`. -/
def Json.isNull : Json → Bool
  | .null => true
  | _ => false

/-- The `blocks.map` body of `convertTurnToMessages`: reading
`block.type` on a `null` element throws (a `TypeError` aborting the
whole conversion); a block whose `type` field is the string `"text"`
becomes a text entry; every other block is treated as a `tool_use`
block and converted field by field with no validation. -/
def convertBlock (b : Json) : Except Unit RContent :=
  if b.isNull then .error ()
  else if isTextType (jsField b "type") then .ok (.text (jsField b "text"))
  else
    .ok (.toolCall (jsField b "id") (jsField b "name") (jsField b "input")
           ((jsField b "input").map Json.stringify) (jsField b "result")
           (jsField b "is_error"))

/-- Model of `blocks.map(block => ...)` under a possible exception: elements are
converted left to right and the first thrown `TypeError` aborts the
whole map. -/
def mapConvert : List Json → Except Unit (List RContent)
  | [] => .ok []
  | b :: bs =>
    match convertBlock b with
    | .error u => .error u
    | .ok rc =>
      match mapConvert bs with
      | .error u => .error u
      | .ok rcs => .ok (rc :: rcs)

/-- Outcome of the `if (turn.assistant_blocks)` guard followed by the
host `JSON.parse` on the stored payload string: `absent` when the field
is `null` or the empty string (falsy, guard skips the assistant
message), `invalid` when the non-empty string is not valid JSON
(`JSON.parse` throws), `value j` when it parses to `j`. -/
inductive StoredPayload where
  | absent : StoredPayload
  | invalid : StoredPayload
  | value (j : Json) : StoredPayload

/-- A persisted turn record as `convertTurnToMessages` receives it, with
the assistant payload represented by its parse outcome. -/
structure StoredTurn where
  id : String
  userContent : Option String
  assistantBlocks : StoredPayload

/-- Message roles. -/
inductive Role where
  | user : Role
  | assistant : Role
deriving DecidableEq, Repr

/-- A converted `ThreadMessageLike`, restricted to the fields the claims
are about. -/
structure Msg where
  role : Role
  id : String
  content : List RContent

/-- The user message pushed by `convertTurnToMessages` when
`turn.user_content` is truthy (neither `null` nor the empty string). -/
def userMsgsOf (t : StoredTurn) : List Msg :=
  match t.userContent with
  | some u =>
      if u ≠ "" then
        [{ role := .user, id := t.id ++ "-user", content := [.text (some (.str u))] }]
      else []
  | none => []

/-- The conversion `convertTurnToMessages`: push a user message when `user_content` is
truthy; then, when the assistant payload is truthy, parse it and map the
blocks (a parse failure or a `.map` call on a non-array propagates as an
exception, discarding the whole result). -/
def convertTurnToMessages (t : StoredTurn) : Except Unit (List Msg) :=
  match t.assistantBlocks with
  | .absent => .ok (userMsgsOf t)
  | .invalid => .error ()
  | .value (.arr bs) =>
    match mapConvert bs with
    | .error u => .error u
    | .ok content =>
        .ok (userMsgsOf t
              ++ [{ role := .assistant, id := t.id ++ "-assistant", content := content }])
  | .value _ => .error ()

/-- The backend's stored encoding of one live content item (the
`TextBlock` / `ToolUseBlock` JSON schema of the stored
`assistant_blocks` array); absent `result`/`is_error` fields are
omitted, as `JSON.stringify` drops `undefined` fields. -/
def encodeItem : ContentItem → Json
  | .text t => .obj [("type", .str "text"), ("text", .str t)]
  | .toolCall tcid n a _atx r ie =>
      .obj ([("type", .str "tool_use"), ("id", .str tcid), ("name", .str n), ("input", a)]
        ++ (match r with | some v => [("result", v)] | none => [])
        ++ (match ie with | some v => [("is_error", v)] | none => []))

/-- The canonical injection of a live content item into display content:
every field present, structurally identical. -/
def displayOfItem : ContentItem → RContent
  | .text t => .text (some (.str t))
  | .toolCall tcid n a atx r ie =>
      .toolCall (some (.str tcid)) (some (.str n)) (some a) (some atx) r ie

/-- The live user message pushed by `onNew` (its id derives from the
`Date.now()` timestamp, its content is always the submitted text). -/
def liveUserMsg (ts : Nat) (input : String) : Msg :=
  { role := .user, id := "user-" ++ toString ts, content := [.text (some (.str input))] }

/-- The live assistant message for an aggregator state: the id derives
from the `Date.now()` timestamp, the content is `buildContent` of the
accumulated items. -/
def liveAssistantMsg (ts : Nat) (s : AggState) : Msg :=
  { role := .assistant, id := "assistant-" ++ toString ts,
    content := (buildContent s.contentItems).map displayOfItem }

/-- The two messages `onNew` pushes at the start of a turn: the user
message and the running assistant placeholder. -/
def liveTurnStart (ts : Nat) (input : String) : List Msg :=
  [liveUserMsg ts input, liveAssistantMsg ts initState]

/-- What fixes a block's position and identity: its kind together with,
for tool calls, the registration-time fields.  Later events may change a
text item's string or a tool item's result but never its tag. -/
inductive OriginTag where
  | textOrigin : OriginTag
  | toolOrigin (id name : String) (args : Json) (argsText : String) : OriginTag

/-- The tag of an item. -/
def originTag : ContentItem → OriginTag
  | .text _ => .textOrigin
  | .toolCall tcid n a atx _ _ => .toolOrigin tcid n a atx

/-- The `toolCallId` of a tool-call item, `none` for text. -/
def blockCallId : ContentItem → Option String
  | .text _ => none
  | .toolCall tcid _ _ _ _ _ => some tcid

/-- Registration-time consistency of `argsText`: it is the
serialization of `args` (established by `mkToolItem`, never changed). -/
def argsTextOk : ContentItem → Prop
  | .text _ => True
  | .toolCall _ _ a atx _ _ => atx = Json.stringify a

/-- A tool-call item with the result fields overwritten; text items are
untouched. -/
def withResult : ContentItem → Option Json → Option Json → ContentItem
  | .toolCall tcid n a atx _ _, c, e => .toolCall tcid n a atx c e
  | b, _, _ => b

/- ### Helper lemmas -/

/-- Setting an index to an element with the same image leaves the mapped
list unchanged. -/
theorem map_set_of_eq {α β : Type} (f : α → β) (l : List α) (i : Nat) (b c : α)
    (hc : l[i]? = some c) (hf : f b = f c) : (l.set i b).map f = l.map f := by
  induction l generalizing i with
  | nil => simp at hc
  | cons x xs ih =>
    cases i with
    | zero =>
      simp at hc
      subst hc
      simp [List.set, hf]
    | succ n =>
      simp only [List.getElem?_cons_succ] at hc
      simp [List.set, ih n hc]

/-- Applying `setResult` never changes a block's origin tag. -/
theorem setResult_map_originTag (l : List ContentItem) (tid : String) (c e : Option Json) :
    (setResult l tid c e).map originTag = l.map originTag := by
  induction l with
  | nil => rfl
  | cons x xs ih =>
    cases x with
    | text t => simp [setResult, ih]
    | toolCall tcid n a atx r ie =>
      by_cases h : tcid = tid
      · simp [setResult, h, originTag]
      · simp [setResult, h, ih]

/-- When `findLastTextIdx` returns an index, a text item sits there. -/
theorem findLastTextIdx_getElem (l : List ContentItem) (i : Nat)
    (h : findLastTextIdx l = some i) : ∃ t, l[i]? = some (ContentItem.text t) := by
  induction l generalizing i with
  | nil => simp [findLastTextIdx] at h
  | cons x xs ih =>
    cases x with
    | text t =>
      rw [findLastTextIdx] at h
      cases hr : findLastTextIdx xs with
      | some k =>
        rw [hr] at h
        cases h
        obtain ⟨u, hu⟩ := ih k hr
        exact ⟨u, by rw [List.getElem?_cons_succ]; exact hu⟩
      | none =>
        rw [hr] at h
        cases h
        exact ⟨t, by rw [List.getElem?_cons_zero]⟩
    | toolCall tcid n a atx r ie =>
      rw [findLastTextIdx] at h
      cases hr : findLastTextIdx xs with
      | some k =>
        rw [hr] at h
        cases h
        obtain ⟨u, hu⟩ := ih k hr
        exact ⟨u, by rw [List.getElem?_cons_succ]; exact hu⟩
      | none => rw [hr] at h; cases h

/-- When `findLastTextIdx` finds nothing, no index holds a text item. -/
theorem findLastTextIdx_none (l : List ContentItem)
    (h : findLastTextIdx l = none) :
    ∀ (j : Nat) (t : String), l[j]? ≠ some (ContentItem.text t) := by
  induction l with
  | nil => intro j t; simp
  | cons x xs ih =>
    intro j t
    cases x with
    | text u =>
      rw [findLastTextIdx] at h
      cases hr : findLastTextIdx xs <;> rw [hr] at h <;> cases h
    | toolCall tcid n a atx r ie =>
      rw [findLastTextIdx] at h
      cases hr : findLastTextIdx xs with
      | some k => rw [hr] at h; cases h
      | none =>
        cases j with
        | zero => simp
        | succ m => rw [List.getElem?_cons_succ]; exact ih hr m t

/-- No index past the one `findLastTextIdx` returns holds a text item. -/
theorem findLastTextIdx_last (l : List ContentItem) (i : Nat)
    (h : findLastTextIdx l = some i) :
    ∀ (j : Nat) (t : String), i < j → l[j]? ≠ some (ContentItem.text t) := by
  induction l generalizing i with
  | nil => intro j t _; simp
  | cons x xs ih =>
    intro j t hij
    cases x with
    | text u =>
      rw [findLastTextIdx] at h
      cases hr : findLastTextIdx xs with
      | some k =>
        rw [hr] at h
        cases h
        cases j with
        | zero => omega
        | succ m =>
          rw [List.getElem?_cons_succ]
          exact ih k hr m t (by omega)
      | none =>
        rw [hr] at h
        cases h
        cases j with
        | zero => omega
        | succ m =>
          rw [List.getElem?_cons_succ]
          exact findLastTextIdx_none xs hr m t
    | toolCall tcid n a atx r ie =>
      rw [findLastTextIdx] at h
      cases hr : findLastTextIdx xs with
      | some k =>
        rw [hr] at h
        cases h
        cases j with
        | zero => omega
        | succ m =>
          rw [List.getElem?_cons_succ]
          exact ih k hr m t (by omega)
      | none => rw [hr] at h; cases h

/-- One event never disturbs the tags of already-placed blocks: the
mapped tag list is either unchanged or extended by exactly one new tag
at the end.  A block's position (and, for tool calls, its registration
fields) is therefore fixed by its first contributing event. -/
theorem applyEvent_originTags (s : AggState) (e : Event) :
    ∃ tl, (applyEvent s e).contentItems.map originTag
            = s.contentItems.map originTag ++ tl ∧ tl.length ≤ 1 := by
  cases hc : s.closed with
  | true => exact ⟨[], by simp [applyEvent, hc], by simp⟩
  | false =>
    cases e with
    | textDelta c =>
      simp only [applyEvent, hc, Bool.false_eq_true, if_false]
      rcases hcti : s.currentTextIndex with _ | i
      · exact ⟨[OriginTag.textOrigin], by simp [stepTextDelta, hcti, pushNewText, originTag], by simp⟩
      · simp only [stepTextDelta, hcti]
        rcases hg : s.contentItems[i]? with _ | b
        · exact ⟨[OriginTag.textOrigin], by simp [hg, pushNewText, originTag], by simp⟩
        · cases b with
          | text t =>
            refine ⟨[], ?_, by simp⟩
            simp only [hg, List.append_nil]
            exact map_set_of_eq originTag s.contentItems i _ _ hg rfl
          | toolCall tcid n a atx r ie =>
            exact ⟨[OriginTag.textOrigin], by simp [hg, pushNewText, originTag], by simp⟩
    | toolCall id name input =>
      exact ⟨[originTag (mkToolItem id name input)],
        by simp [applyEvent, hc, stepToolCall], by simp⟩
    | toolResult tid c ie =>
      exact ⟨[], by simp [applyEvent, hc, stepToolResult, setResult_map_originTag], by simp⟩
    | text c =>
      by_cases hcs : c = ""
      · exact ⟨[], by simp [applyEvent, hc, stepText, hcs], by simp⟩
      · simp only [applyEvent, hc, Bool.false_eq_true, if_false, stepText, if_pos hcs]
        rcases hf : findLastTextIdx s.contentItems with _ | i
        · exact ⟨[OriginTag.textOrigin], by simp [hf, originTag], by simp⟩
        · refine ⟨[], ?_, by simp⟩
          simp only [hf, List.append_nil]
          obtain ⟨t, ht⟩ := findLastTextIdx_getElem s.contentItems i hf
          exact map_set_of_eq originTag s.contentItems i _ _ ht rfl

/-- C1: blocks appear in the order of their first contributing event —
every event either leaves the tag sequence of the accumulated blocks
unchanged or appends exactly one new tag — and for the sequence
tool_call(A), text_delta("x"), tool_call(B), text_delta("y"),
tool_result(B), tool_result(A) the final order is
[ToolCall A, Text "x", ToolCall B, Text "y"] with each call carrying its
own result despite the reversed arrival order of the results. -/
theorem claim1_block_order :
    (∀ (s : AggState) (e : Event), ∃ tl,
        (applyEvent s e).contentItems.map originTag
          = s.contentItems.map originTag ++ tl ∧ tl.length ≤ 1) ∧
    (runEvents
        [Event.toolCall "A" "toolA" (some (Json.obj [("q", Json.str "1")])),
         Event.textDelta "x",
         Event.toolCall "B" "toolB" (some (Json.obj [("r", Json.num 2)])),
         Event.textDelta "y",
         Event.toolResult "B" (some (Json.str "okB")) (some (Json.bool false)),
         Event.toolResult "A" (some (Json.str "okA")) (some (Json.bool false))]).contentItems
      = [ContentItem.toolCall "A" "toolA" (Json.obj [("q", Json.str "1")])
           (Json.stringify (Json.obj [("q", Json.str "1")]))
           (some (Json.str "okA")) (some (Json.bool false)),
         ContentItem.text "x",
         ContentItem.toolCall "B" "toolB" (Json.obj [("r", Json.num 2)])
           (Json.stringify (Json.obj [("r", Json.num 2)]))
           (some (Json.str "okB")) (some (Json.bool false)),
         ContentItem.text "y"] :=
  ⟨applyEvent_originTags, rfl⟩

/-- C2 (amended): a terminal text(finalContent) event marks the turn
complete and closes the stream; when finalContent is non-empty it
overwrites the last TextBlock (or appends one when no TextBlock exists),
but an empty finalContent leaves the accumulated blocks unchanged; in
particular text_delta("partial") then text("final and complete") yields
exactly one TextBlock "final and complete". -/
theorem claim2_terminal_text (s : AggState) (c : String) (hclosed : s.closed = false) :
    (applyEvent s (.text c)).status = TurnStatus.complete ∧
    (applyEvent s (.text c)).closed = true ∧
    (c = "" → (applyEvent s (.text c)).contentItems = s.contentItems) ∧
    (c ≠ "" → (∃ (j : Nat) (t : String), s.contentItems[j]? = some (ContentItem.text t)) →
       ∃ (i : Nat) (t : String), s.contentItems[i]? = some (ContentItem.text t) ∧
         (∀ (j : Nat) (u : String), i < j → s.contentItems[j]? ≠ some (ContentItem.text u)) ∧
         (applyEvent s (.text c)).contentItems = s.contentItems.set i (.text c)) ∧
    (c ≠ "" → (∀ (j : Nat) (t : String), s.contentItems[j]? ≠ some (ContentItem.text t)) →
       (applyEvent s (.text c)).contentItems = s.contentItems ++ [.text c]) ∧
    (runEvents [Event.textDelta "partial", Event.text "final and complete"]).contentItems
       = [ContentItem.text "final and complete"] ∧
    (runEvents [Event.textDelta "partial", Event.text "final and complete"]).status
       = TurnStatus.complete := by
  refine ⟨by simp [applyEvent, hclosed, stepText],
          by simp [applyEvent, hclosed, stepText], ?_, ?_, ?_, rfl, rfl⟩
  · intro hc
    simp [applyEvent, hclosed, stepText, hc]
  · intro hc hex
    cases hflt : findLastTextIdx s.contentItems with
    | none =>
      obtain ⟨j, t, hjt⟩ := hex
      exact absurd hjt (findLastTextIdx_none s.contentItems hflt j t)
    | some i =>
      obtain ⟨t, ht⟩ := findLastTextIdx_getElem s.contentItems i hflt
      refine ⟨i, t, ht, fun j u hij => findLastTextIdx_last s.contentItems i hflt j u hij, ?_⟩
      simp [applyEvent, hclosed, stepText, hc, hflt]
  · intro hc hnone
    cases hflt : findLastTextIdx s.contentItems with
    | none => simp [applyEvent, hclosed, stepText, hc, hflt]
    | some i =>
      obtain ⟨t, ht⟩ := findLastTextIdx_getElem s.contentItems i hflt
      exact absurd ht (hnone i t)

/-- C2 counterexample: after text_delta("partial"), the terminal event
text("") does not replace the last TextBlock's content with "" — the
block keeps "partial" (the handler only overwrites when the final
content is truthy), while the status still becomes complete. -/
theorem claim2_counterexample :
    (runEvents [Event.textDelta "partial", Event.text ""]).contentItems
      = [ContentItem.text "partial"] ∧
    (runEvents [Event.textDelta "partial", Event.text ""]).status = TurnStatus.complete ∧
    ("partial" : String) ≠ "" :=
  ⟨rfl, rfl, by decide⟩

/-- C2 witness: the amended theorem applied after one streamed delta. -/
theorem claim2_terminal_text_witness :
    (applyEvent (runEvents [Event.textDelta "partial"]) (Event.text "final")).status
      = TurnStatus.complete ∧
    (∃ (i : Nat) (t : String),
       (runEvents [Event.textDelta "partial"]).contentItems[i]? = some (ContentItem.text t) ∧
       (∀ (j : Nat) (u : String), i < j →
          (runEvents [Event.textDelta "partial"]).contentItems[j]? ≠ some (ContentItem.text u)) ∧
       (applyEvent (runEvents [Event.textDelta "partial"]) (Event.text "final")).contentItems
         = (runEvents [Event.textDelta "partial"]).contentItems.set i (.text "final")) :=
  ⟨(claim2_terminal_text (runEvents [Event.textDelta "partial"]) "final" rfl).1,
   (claim2_terminal_text (runEvents [Event.textDelta "partial"]) "final" rfl).2.2.2.1
     (by simp) ⟨0, "partial", rfl⟩⟩

/-- When some block of the prefix carries the searched callId, a result
never reaches blocks appended after it. -/
theorem setResult_append_of_mem (l l2 : List ContentItem) (tid : String) (c e : Option Json)
    (h : ∃ b ∈ l, blockCallId b = some tid) :
    setResult (l ++ l2) tid c e = setResult l tid c e ++ l2 := by
  induction l with
  | nil => obtain ⟨b, hb, _⟩ := h; simp at hb
  | cons x xs ih =>
    cases x with
    | text t =>
      have h' : ∃ b ∈ xs, blockCallId b = some tid := by
        obtain ⟨b, hb, hid⟩ := h
        rcases List.mem_cons.mp hb with rfl | hmem
        · simp [blockCallId] at hid
        · exact ⟨b, hmem, hid⟩
      simp only [List.cons_append, setResult]
      rw [List.append_eq, ih h']
    | toolCall tcid n a atx r ie =>
      by_cases hid : tcid = tid
      · simp [setResult, hid]
      · have h' : ∃ b ∈ xs, blockCallId b = some tid := by
          obtain ⟨b, hb, hbid⟩ := h
          rcases List.mem_cons.mp hb with rfl | hmem
          · simp only [blockCallId, Option.some.injEq] at hbid
            exact absurd hbid hid
          · exact ⟨b, hmem, hbid⟩
        simp only [List.cons_append, setResult, if_neg hid]
        rw [List.append_eq, ih h']

/-- C3 (amended): a second tool_call with a previously seen callId is
not ignored — it appends a second ToolCallBlock with that callId at the
end of the block list.  The original registration keeps its position,
name and arguments (the prefix is untouched), the duplicate starts with
no result, and a subsequent tool_result for that callId is applied to
the original (first-registered) block, not to the duplicate. -/
theorem claim3_duplicate_tool_call (s : AggState) (id name : String) (input : Option Json)
    (hclosed : s.closed = false)
    (hdup : ∃ b ∈ s.contentItems, blockCallId b = some id) :
    (applyEvent s (.toolCall id name input)).contentItems
      = s.contentItems ++ [mkToolItem id name input] ∧
    (∃ a atx, mkToolItem id name input = ContentItem.toolCall id name a atx none none) ∧
    (∀ c e, (applyEvent (applyEvent s (.toolCall id name input))
               (.toolResult id c e)).contentItems
        = setResult s.contentItems id c e ++ [mkToolItem id name input]) := by
  refine ⟨by simp [applyEvent, hclosed, stepToolCall], ⟨_, _, rfl⟩, ?_⟩
  intro c e
  simp only [applyEvent, hclosed, Bool.false_eq_true, if_false, stepToolCall, stepToolResult]
  exact setResult_append_of_mem s.contentItems [mkToolItem id name input] id c e hdup

/-- C3 counterexample: two tool_call events with the same callId "A"
produce two ToolCallBlocks with callId "A" — the duplicate is appended,
not ignored. -/
theorem claim3_counterexample :
    (runEvents [Event.toolCall "A" "n1" none, Event.toolCall "A" "n2" none]).contentItems
      = [ContentItem.toolCall "A" "n1" (Json.obj []) (Json.stringify (Json.obj [])) none none,
         ContentItem.toolCall "A" "n2" (Json.obj []) (Json.stringify (Json.obj [])) none none] ∧
    ((runEvents [Event.toolCall "A" "n1" none,
                 Event.toolCall "A" "n2" none]).contentItems.countP
        (fun b => blockCallId b == some "A")) = 2 :=
  ⟨rfl, rfl⟩

/-- C3 witness: the amended theorem applied to a state already holding a
registration for callId "A". -/
theorem claim3_duplicate_tool_call_witness :
    (applyEvent (runEvents [Event.toolCall "A" "n1" none])
        (Event.toolCall "A" "n2" none)).contentItems
      = (runEvents [Event.toolCall "A" "n1" none]).contentItems ++ [mkToolItem "A" "n2" none] ∧
    (∃ a atx, mkToolItem "A" "n2" none = ContentItem.toolCall "A" "n2" a atx none none) :=
  ⟨(claim3_duplicate_tool_call (runEvents [Event.toolCall "A" "n1" none]) "A" "n2" none rfl
      ⟨mkToolItem "A" "n1" none,
       by rw [show (runEvents [Event.toolCall "A" "n1" none]).contentItems
                 = [mkToolItem "A" "n1" none] from rfl]
          exact List.mem_singleton.mpr rfl,
       rfl⟩).1,
   (claim3_duplicate_tool_call (runEvents [Event.toolCall "A" "n1" none]) "A" "n2" none rfl
      ⟨mkToolItem "A" "n1" none,
       by rw [show (runEvents [Event.toolCall "A" "n1" none]).contentItems
                 = [mkToolItem "A" "n1" none] from rfl]
          exact List.mem_singleton.mpr rfl,
       rfl⟩).2.1⟩

/-- A result whose callId matches no block leaves the list unchanged. -/
theorem setResult_eq_of_not_mem (l : List ContentItem) (tid : String) (c e : Option Json)
    (h : ∀ b ∈ l, blockCallId b ≠ some tid) : setResult l tid c e = l := by
  induction l with
  | nil => rfl
  | cons x xs ih =>
    cases x with
    | text t =>
      simp only [setResult]
      rw [ih (fun b hb => h b (List.mem_cons_of_mem _ hb))]
    | toolCall tcid n a atx r ie =>
      have hne : tcid ≠ tid := by
        have := h (.toolCall tcid n a atx r ie) (List.mem_cons_self _ _)
        simpa [blockCallId] using this
      simp only [setResult, if_neg hne]
      rw [ih (fun b hb => h b (List.mem_cons_of_mem _ hb))]

/-- C4: a tool_result whose id matches no registered tool_call leaves
the whole aggregator state — and hence the snapshot's block list and
status — unchanged and does not terminate the turn; a subsequent
tool_call with that id registers a ToolCallBlock with no result
attached. -/
theorem claim4_unknown_result (s : AggState) (tid : String) (c e : Option Json)
    (n : String) (inp : Option Json)
    (hclosed : s.closed = false)
    (hno : ∀ b ∈ s.contentItems, blockCallId b ≠ some tid) :
    applyEvent s (.toolResult tid c e) = s ∧
    snapshotOf (applyEvent s (.toolResult tid c e)) = snapshotOf s ∧
    (applyEvent s (.toolResult tid c e)).status = s.status ∧
    (applyEvent s (.toolResult tid c e)).closed = false ∧
    (applyEvent (applyEvent s (.toolResult tid c e)) (.toolCall tid n inp)).contentItems
      = s.contentItems ++ [mkToolItem tid n inp] ∧
    (∃ a atx, mkToolItem tid n inp = ContentItem.toolCall tid n a atx none none) := by
  have h1 : applyEvent s (.toolResult tid c e) = s := by
    rw [applyEvent, if_neg (by simp [hclosed])]
    show { s with contentItems := setResult s.contentItems tid c e } = s
    rw [setResult_eq_of_not_mem s.contentItems tid c e hno]
  refine ⟨h1, by rw [h1], by rw [h1], by rw [h1, hclosed], ?_, ⟨_, _, rfl⟩⟩
  rw [h1]
  simp [applyEvent, hclosed, stepToolCall]

/-- C4 witness: a result for the unregistered id "B" is dropped, and the
later tool_call("B") registers with no result. -/
theorem claim4_unknown_result_witness :
    applyEvent initState (Event.toolResult "B" (some (Json.str "r")) none) = initState ∧
    (applyEvent (applyEvent initState (Event.toolResult "B" (some (Json.str "r")) none))
        (Event.toolCall "B" "nB" none)).contentItems
      = initState.contentItems ++ [mkToolItem "B" "nB" none] :=
  ⟨(claim4_unknown_result initState "B" (some (Json.str "r")) none "nB" none rfl
      (by intro b hb; simp [initState] at hb)).1,
   (claim4_unknown_result initState "B" (some (Json.str "r")) none "nB" none rfl
      (by intro b hb; simp [initState] at hb)).2.2.2.2.1⟩

/-- C5: two independent aggregator instances fed the same recorded
event sequence from the fresh state produce structurally equal final
snapshots, and the `Date.now()` timestamp woven into the message ids
never influences the rendered block content. -/
theorem claim5_replay_determinism (evts : List Event) (a1 a2 : AggState)
    (h1 : a1 = List.foldl applyEvent initState evts)
    (h2 : a2 = List.foldl applyEvent initState evts) :
    snapshotOf a1 = snapshotOf a2 ∧
    ∀ ts1 ts2 : Nat,
      (liveAssistantMsg ts1 a1).content = (liveAssistantMsg ts2 a2).content := by
  subst h1; subst h2
  exact ⟨rfl, fun _ _ => rfl⟩

/-- C5 witness: determinism applied to a short recorded sequence. -/
theorem claim5_replay_determinism_witness :
    snapshotOf (runEvents [Event.textDelta "x", Event.toolCall "A" "t" none, Event.text "done"])
      = snapshotOf (runEvents [Event.textDelta "x", Event.toolCall "A" "t" none, Event.text "done"]) ∧
    ∀ ts1 ts2 : Nat,
      (liveAssistantMsg ts1
          (runEvents [Event.textDelta "x", Event.toolCall "A" "t" none, Event.text "done"])).content
        = (liveAssistantMsg ts2
          (runEvents [Event.textDelta "x", Event.toolCall "A" "t" none, Event.text "done"])).content :=
  claim5_replay_determinism [Event.textDelta "x", Event.toolCall "A" "t" none, Event.text "done"]
    _ _ rfl rfl

/-- Conversion of a single non-null block never throws. -/
theorem convertBlock_ok (b : Json) (h : b ≠ Json.null) :
    ∃ rc, convertBlock b = .ok rc := by
  have hnull : b.isNull = false := by
    cases b with
    | null => exact absurd rfl h
    | bool x => rfl
    | num x => rfl
    | str x => rfl
    | arr xs => rfl
    | obj fs => rfl
  rw [convertBlock, hnull]
  simp only [Bool.false_eq_true, if_false]
  by_cases hty : isTextType (jsField b "type") = true
  · rw [if_pos hty]; exact ⟨_, rfl⟩
  · rw [if_neg hty]; exact ⟨_, rfl⟩

/-- Mapping conversion over an array of non-null blocks never throws. -/
theorem mapConvert_ok (bs : List Json) (h : ∀ b ∈ bs, b ≠ Json.null) :
    ∃ rcs, mapConvert bs = .ok rcs := by
  induction bs with
  | nil => exact ⟨[], rfl⟩
  | cons b rest ih =>
    obtain ⟨rc, hrc⟩ := convertBlock_ok b (h b (List.mem_cons_self _ _))
    obtain ⟨rcs, hrcs⟩ := ih (fun x hx => h x (List.mem_cons_of_mem _ hx))
    exact ⟨rc :: rcs, by simp [mapConvert, hrc, hrcs]⟩

/-- Mapping conversion over an array containing a `null` element always
throws: elements before the first `null` convert successfully, the
`null` element's field read throws, and the exception aborts the map. -/
theorem mapConvert_error_of_mem_null (bs : List Json) (h : ∃ b ∈ bs, b = Json.null) :
    mapConvert bs = .error () := by
  induction bs with
  | nil => obtain ⟨b, hb, _⟩ := h; simp at hb
  | cons b rest ih =>
    by_cases hb : b = Json.null
    · subst hb
      rfl
    · obtain ⟨rc, hrc⟩ := convertBlock_ok b hb
      have hrest : ∃ x ∈ rest, x = Json.null := by
        obtain ⟨x, hx, hxn⟩ := h
        rcases List.mem_cons.mp hx with rfl | hmem
        · exact absurd hxn hb
        · exact ⟨x, hmem, hxn⟩
      simp [mapConvert, hrc, ih hrest]

/-- C6 (amended): replay fails — producing no messages at all for the
turn — exactly when the truthy stored payload is not valid JSON or does
not parse to an array or an array element is `null` (on which the field
read throws); an array of non-null blocks always converts successfully,
so an unknown block type or a missing required field is NOT rejected:
the element is rendered as a tool-call block with absent fields. -/
theorem claim6_malformed_replay (t : StoredTurn) :
    (t.assistantBlocks = .invalid → convertTurnToMessages t = .error ()) ∧
    (∀ j, t.assistantBlocks = .value j → (∀ bs, j ≠ .arr bs) →
       convertTurnToMessages t = .error ()) ∧
    (∀ bs, t.assistantBlocks = .value (.arr bs) → (∀ b ∈ bs, b ≠ Json.null) →
       ∃ rcs, mapConvert bs = .ok rcs ∧
         convertTurnToMessages t
           = .ok (userMsgsOf t
               ++ [{ role := .assistant, id := t.id ++ "-assistant", content := rcs }])) ∧
    (∀ bs, t.assistantBlocks = .value (.arr bs) → (∃ b ∈ bs, b = Json.null) →
       convertTurnToMessages t = .error ()) := by
  refine ⟨?_, ?_, ?_, ?_⟩
  · intro h
    simp [convertTurnToMessages, h]
  · intro j hj hnarr
    cases j with
    | arr bs => exact absurd rfl (hnarr bs)
    | null => simp [convertTurnToMessages, hj]
    | bool x => simp [convertTurnToMessages, hj]
    | num x => simp [convertTurnToMessages, hj]
    | str x => simp [convertTurnToMessages, hj]
    | obj fs => simp [convertTurnToMessages, hj]
  · intro bs hbs hnn
    obtain ⟨rcs, hrcs⟩ := mapConvert_ok bs hnn
    exact ⟨rcs, hrcs, by simp [convertTurnToMessages, hbs, hrcs]⟩
  · intro bs hbs hnull
    simp [convertTurnToMessages, hbs, mapConvert_error_of_mem_null bs hnull]

/-- C6 counterexample: a stored payload with the unknown block type
"image" does NOT fail — it converts successfully into a tool-call
display block with every field absent, and the turn is displayed. -/
theorem claim6_counterexample :
    convertTurnToMessages ⟨"t1", none, .value (.arr [.obj [("type", .str "image")]])⟩
      = .ok [{ role := .assistant, id := "t1-assistant",
               content := [.toolCall none none none none none none] }] ∧
    convertTurnToMessages ⟨"t1", none, .value (.arr [.obj [("type", .str "image")]])⟩
      ≠ .error () := by
  refine ⟨rfl, ?_⟩
  intro h
  rw [show convertTurnToMessages ⟨"t1", none, .value (.arr [.obj [("type", .str "image")]])⟩
        = .ok [{ role := .assistant, id := "t1-assistant",
                 content := [.toolCall none none none none none none] }] from rfl] at h
  exact Except.noConfusion h

/-- C6 witness: a payload that fails to parse is rejected whole, a
well-formed text block array converts successfully, and an array holding
a null element is rejected whole. -/
theorem claim6_malformed_replay_witness :
    convertTurnToMessages ⟨"t2", none, .invalid⟩ = .error () ∧
    (∃ rcs, mapConvert [Json.obj [("type", Json.str "text"), ("text", Json.str "hi")]]
          = .ok rcs ∧
       convertTurnToMessages
           ⟨"t3", none,
            .value (.arr [Json.obj [("type", Json.str "text"), ("text", Json.str "hi")]])⟩
         = .ok (userMsgsOf
                  ⟨"t3", none,
                   .value (.arr [Json.obj [("type", Json.str "text"), ("text", Json.str "hi")]])⟩
               ++ [{ role := .assistant, id := "t3" ++ "-assistant", content := rcs }])) ∧
    convertTurnToMessages ⟨"t5", none, .value (.arr [Json.null])⟩ = .error () :=
  ⟨(claim6_malformed_replay ⟨"t2", none, .invalid⟩).1 rfl,
   (claim6_malformed_replay
       ⟨"t3", none,
        .value (.arr [Json.obj [("type", Json.str "text"), ("text", Json.str "hi")]])⟩).2.2.1
     [Json.obj [("type", Json.str "text"), ("text", Json.str "hi")]] rfl
     (by intro b hb
         rw [List.mem_singleton] at hb
         subst hb
         intro hnull
         exact Json.noConfusion hnull),
   (claim6_malformed_replay ⟨"t5", none, .value (.arr [Json.null])⟩).2.2.2
     [Json.null] rfl ⟨Json.null, List.mem_singleton.mpr rfl, rfl⟩⟩

/-- A freshly registered tool item carries a consistent `argsText`. -/
theorem argsTextOk_mkToolItem (id name : String) (input : Option Json) :
    argsTextOk (mkToolItem id name input) := rfl

/-- Appending a fresh text block preserves `argsText` consistency. -/
theorem pushNewText_argsTextOk (s : AggState) (c : String)
    (h : ∀ b ∈ s.contentItems, argsTextOk b) :
    ∀ b ∈ (pushNewText s c).contentItems, argsTextOk b := by
  intro b hb
  simp only [pushNewText] at hb
  rcases List.mem_append.mp hb with hmem | hmem
  · exact h b hmem
  · rw [List.mem_singleton] at hmem
    subst hmem
    trivial

/-- Applying a result preserves `argsText` consistency. -/
theorem setResult_argsTextOk (l : List ContentItem) (tid : String) (c e : Option Json)
    (h : ∀ b ∈ l, argsTextOk b) : ∀ b ∈ setResult l tid c e, argsTextOk b := by
  induction l with
  | nil => intro b hb; simp [setResult] at hb
  | cons x xs ih =>
    cases x with
    | text t =>
      intro b hb
      rw [setResult] at hb
      rcases List.mem_cons.mp hb with rfl | hmem
      · trivial
      · exact ih (fun y hy => h y (List.mem_cons_of_mem _ hy)) b hmem
    | toolCall tcid n a atx r ie =>
      intro b hb
      by_cases hid : tcid = tid
      · rw [setResult, if_pos hid] at hb
        rcases List.mem_cons.mp hb with rfl | hmem
        · exact h (.toolCall tcid n a atx r ie) (List.mem_cons_self _ _)
        · exact h b (List.mem_cons_of_mem _ hmem)
      · rw [setResult, if_neg hid] at hb
        rcases List.mem_cons.mp hb with rfl | hmem
        · exact h _ (List.mem_cons_self _ _)
        · exact ih (fun y hy => h y (List.mem_cons_of_mem _ hy)) b hmem

/-- Every event handler preserves `argsText` consistency. -/
theorem applyEvent_argsTextOk (s : AggState) (e : Event)
    (h : ∀ b ∈ s.contentItems, argsTextOk b) :
    ∀ b ∈ (applyEvent s e).contentItems, argsTextOk b := by
  cases hc : s.closed with
  | true => simpa [applyEvent, hc] using h
  | false =>
    cases e with
    | textDelta c =>
      simp only [applyEvent, hc, Bool.false_eq_true, if_false]
      rcases hcti : s.currentTextIndex with _ | i
      · simp only [stepTextDelta, hcti]
        exact pushNewText_argsTextOk s c h
      · simp only [stepTextDelta, hcti]
        rcases hg : s.contentItems[i]? with _ | bb
        · exact pushNewText_argsTextOk s c h
        · cases bb with
          | text t =>
            intro b hb
            rcases List.mem_or_eq_of_mem_set hb with hmem | rfl
            · exact h b hmem
            · trivial
          | toolCall tcid n a atx r ie => exact pushNewText_argsTextOk s c h
    | toolCall id name input =>
      simp only [applyEvent, hc, Bool.false_eq_true, if_false, stepToolCall]
      intro b hb
      rcases List.mem_append.mp hb with hmem | hmem
      · exact h b hmem
      · rw [List.mem_singleton] at hmem
        subst hmem
        exact argsTextOk_mkToolItem id name input
    | toolResult tid c ie =>
      simp only [applyEvent, hc, Bool.false_eq_true, if_false, stepToolResult]
      exact setResult_argsTextOk s.contentItems tid c ie h
    | text c =>
      by_cases hcs : c = ""
      · simpa [applyEvent, hc, stepText, hcs] using h
      · simp only [applyEvent, hc, Bool.false_eq_true, if_false, stepText, if_pos hcs]
        rcases hf : findLastTextIdx s.contentItems with _ | i
        · intro b hb
          rcases List.mem_append.mp hb with hmem | hmem
          · exact h b hmem
          · rw [List.mem_singleton] at hmem
            subst hmem
            trivial
        · intro b hb
          rcases List.mem_or_eq_of_mem_set hb with hmem | rfl
          · exact h b hmem
          · trivial

/-- The `argsText` consistency holds in every state reachable by a fold. -/
theorem foldl_argsTextOk (evts : List Event) (s : AggState)
    (h : ∀ b ∈ s.contentItems, argsTextOk b) :
    ∀ b ∈ (evts.foldl applyEvent s).contentItems, argsTextOk b := by
  induction evts generalizing s with
  | nil => simpa using h
  | cons e rest ih =>
    rw [List.foldl_cons]
    exact ih (applyEvent s e) (applyEvent_argsTextOk s e h)

/-- The helper `buildContent` preserves `argsText` consistency. -/
theorem buildContent_argsTextOk (items : List ContentItem)
    (h : ∀ b ∈ items, argsTextOk b) : ∀ b ∈ buildContent items, argsTextOk b := by
  cases items with
  | nil =>
    intro b hb
    rw [buildContent, List.mem_singleton] at hb
    subst hb
    trivial
  | cons x xs => exact h

/-- Converting the stored encoding of a live item reproduces exactly the
live item's display form. -/
theorem convertBlock_encodeItem (b : ContentItem) (h : argsTextOk b) :
    convertBlock (encodeItem b) = .ok (displayOfItem b) := by
  cases b with
  | text t => rfl
  | toolCall tcid n a atx r ie =>
    have h' : atx = Json.stringify a := h
    subst h'
    cases r with
    | none =>
      cases ie with
      | none => rfl
      | some v => rfl
    | some w =>
      cases ie with
      | none => rfl
      | some v => rfl

/-- Converting a whole encoded block list reproduces the display list. -/
theorem mapConvert_encode (items : List ContentItem)
    (h : ∀ b ∈ items, argsTextOk b) :
    mapConvert (items.map encodeItem) = .ok (items.map displayOfItem) := by
  induction items with
  | nil => rfl
  | cons b rest ih =>
    simp only [List.map_cons, mapConvert,
      convertBlock_encodeItem b (h b (List.mem_cons_self _ _)),
      ih (fun y hy => h y (List.mem_cons_of_mem _ hy))]

/-- C7: replaying a stored Turn whose assistant_blocks is exactly the
final live snapshot's block list yields assistant content structurally
equal to the live content — same order, same text, and for each
ToolCallBlock the same toolCallId, toolName, args, argsText, result and
isError. -/
theorem claim7_replay_parity (evts : List Event) (turnId : String) :
    convertTurnToMessages
        ⟨turnId, none,
         .value (.arr ((buildContent (runEvents evts).contentItems).map encodeItem))⟩
      = .ok [{ role := .assistant, id := turnId ++ "-assistant",
               content := (buildContent (runEvents evts).contentItems).map displayOfItem }] := by
  have hinv : ∀ b ∈ (runEvents evts).contentItems, argsTextOk b :=
    foldl_argsTextOk evts initState (by intro b hb; simp [initState] at hb)
  have hmc := mapConvert_encode _ (buildContent_argsTextOk _ hinv)
  simp [convertTurnToMessages, hmc, userMsgsOf]

/-- Evaluating `setResult` at a first-match index is a point update. -/
theorem setResult_eq_set (l : List ContentItem) (tid : String) (c e : Option Json)
    (i : Nat) (b : ContentItem)
    (hb : l[i]? = some b) (hid : blockCallId b = some tid)
    (hfirst : ∀ (j : Nat) (b' : ContentItem), j < i → l[j]? = some b' →
        blockCallId b' ≠ some tid) :
    setResult l tid c e = l.set i (withResult b c e) := by
  induction l generalizing i with
  | nil => simp at hb
  | cons x xs ih =>
    cases i with
    | zero =>
      rw [List.getElem?_cons_zero] at hb
      obtain rfl : x = b := by injection hb
      cases x with
      | text t => simp [blockCallId] at hid
      | toolCall tcid n a atx r ie =>
        have h' : tcid = tid := by simpa [blockCallId] using hid
        subst h'
        simp [setResult, withResult, List.set]
    | succ m =>
      rw [List.getElem?_cons_succ] at hb
      have hx : blockCallId x ≠ some tid :=
        hfirst 0 x (Nat.succ_pos m) (by rw [List.getElem?_cons_zero])
      have hrest : ∀ (j : Nat) (b' : ContentItem), j < m → xs[j]? = some b' →
          blockCallId b' ≠ some tid := by
        intro j b' hj hb'
        exact hfirst (j + 1) b' (Nat.succ_lt_succ hj)
          (by rw [List.getElem?_cons_succ]; exact hb')
      cases x with
      | text t =>
        simp only [setResult, List.set]
        rw [ih m hb hrest]
      | toolCall tcid n a atx r ie =>
        have hne : tcid ≠ tid := by
          intro hcontra
          exact hx (by simp [blockCallId, hcontra])
        simp only [setResult, if_neg hne, List.set]
        rw [ih m hb hrest]

/-- C8: a tool_result whose id matches a registered tool_call performs a
point update of the first matching block — only its result and isError
fields change (toolCallId, toolName, args, argsText and the origin tag
are preserved), every other position is untouched, the length, order,
status and text cursor are unchanged. -/
theorem claim8_result_frame (s : AggState) (tid : String) (c e : Option Json)
    (i : Nat) (b : ContentItem)
    (hclosed : s.closed = false)
    (hb : s.contentItems[i]? = some b)
    (hid : blockCallId b = some tid)
    (hfirst : ∀ (j : Nat) (b' : ContentItem), j < i → s.contentItems[j]? = some b' →
        blockCallId b' ≠ some tid) :
    (applyEvent s (.toolResult tid c e)).contentItems
      = s.contentItems.set i (withResult b c e) ∧
    originTag (withResult b c e) = originTag b ∧
    (∃ n a atx r0 ie0, b = ContentItem.toolCall tid n a atx r0 ie0 ∧
        withResult b c e = ContentItem.toolCall tid n a atx c e) ∧
    (applyEvent s (.toolResult tid c e)).contentItems.length = s.contentItems.length ∧
    (∀ j : Nat, j ≠ i →
        (applyEvent s (.toolResult tid c e)).contentItems[j]? = s.contentItems[j]?) ∧
    (applyEvent s (.toolResult tid c e)).status = s.status ∧
    (applyEvent s (.toolResult tid c e)).currentTextIndex = s.currentTextIndex := by
  have hset : (applyEvent s (.toolResult tid c e)).contentItems
      = s.contentItems.set i (withResult b c e) := by
    rw [applyEvent, if_neg (by simp [hclosed])]
    show setResult s.contentItems tid c e = s.contentItems.set i (withResult b c e)
    exact setResult_eq_set s.contentItems tid c e i b hb hid hfirst
  have hbt : ∃ n a atx r0 ie0, b = ContentItem.toolCall tid n a atx r0 ie0 := by
    cases b with
    | text t => simp [blockCallId] at hid
    | toolCall tcid n a atx r0 ie0 =>
      have h' : tcid = tid := by simpa [blockCallId] using hid
      subst h'
      exact ⟨n, a, atx, r0, ie0, rfl⟩
  obtain ⟨n, a, atx, r0, ie0, rfl⟩ := hbt
  refine ⟨hset, rfl, ⟨n, a, atx, r0, ie0, rfl, rfl⟩, ?_, ?_, ?_, ?_⟩
  · rw [hset]
    exact List.length_set ..
  · intro j hj
    rw [hset]
    exact List.getElem?_set_ne (Ne.symm hj)
  · rw [applyEvent, if_neg (by simp [hclosed])]
    rfl
  · rw [applyEvent, if_neg (by simp [hclosed])]
    rfl

/-- C8 witness: the frame property applied to a state holding one
registered call "A". -/
theorem claim8_result_frame_witness :
    (applyEvent (runEvents [Event.toolCall "A" "nA" none])
        (Event.toolResult "A" (some (Json.str "res")) (some (Json.bool false)))).contentItems
      = (runEvents [Event.toolCall "A" "nA" none]).contentItems.set 0
          (withResult (mkToolItem "A" "nA" none)
            (some (Json.str "res")) (some (Json.bool false))) ∧
    originTag (withResult (mkToolItem "A" "nA" none)
        (some (Json.str "res")) (some (Json.bool false)))
      = originTag (mkToolItem "A" "nA" none) ∧
    (applyEvent (runEvents [Event.toolCall "A" "nA" none])
        (Event.toolResult "A" (some (Json.str "res")) (some (Json.bool false)))).status
      = (runEvents [Event.toolCall "A" "nA" none]).status :=
  ⟨(claim8_result_frame (runEvents [Event.toolCall "A" "nA" none]) "A"
      (some (Json.str "res")) (some (Json.bool false)) 0 (mkToolItem "A" "nA" none) rfl rfl rfl
      (fun j _ hj _ => absurd hj (Nat.not_lt_zero j))).1,
   (claim8_result_frame (runEvents [Event.toolCall "A" "nA" none]) "A"
      (some (Json.str "res")) (some (Json.bool false)) 0 (mkToolItem "A" "nA" none) rfl rfl rfl
      (fun j _ hj _ => absurd hj (Nat.not_lt_zero j))).2.1,
   (claim8_result_frame (runEvents [Event.toolCall "A" "nA" none]) "A"
      (some (Json.str "res")) (some (Json.bool false)) 0 (mkToolItem "A" "nA" none) rfl rfl rfl
      (fun j _ hj _ => absurd hj (Nat.not_lt_zero j))).2.2.2.2.2.1⟩

/-- C9: the rendered assistant content is never empty — with no
accumulated items `buildContent` yields exactly one empty TextBlock
(this is also the initial placeholder), and after any event application
the rendered content stays non-empty. -/
theorem claim9_nonempty_content :
    buildContent [] = [ContentItem.text ""] ∧
    buildContent initState.contentItems = [ContentItem.text ""] ∧
    (∀ items : List ContentItem, buildContent items ≠ []) ∧
    (∀ (s : AggState) (e : Event), buildContent ((applyEvent s e).contentItems) ≠ []) := by
  have hne : ∀ items : List ContentItem, buildContent items ≠ [] := by
    intro items
    cases items with
    | nil => simp [buildContent]
    | cons x xs => simp [buildContent]
  exact ⟨rfl, rfl, hne, fun s e => hne _⟩

/-- C10: the truthiness guards of `convertTurnToMessages` — a null or
empty-string user_content yields no user message, a null/empty assistant
payload yields no assistant message, a turn with both empty converts to
no messages at all, while the live rendering of a turn with the same
empty user text still shows two messages. -/
theorem claim10_truthiness_guards (t : StoredTurn) :
    ((t.userContent = none ∨ t.userContent = some "") → userMsgsOf t = []) ∧
    ((t.userContent = none ∨ t.userContent = some "") →
       ∀ ms, convertTurnToMessages t = .ok ms → ∀ m ∈ ms, m.role ≠ Role.user) ∧
    (t.assistantBlocks = .absent →
       ∀ ms, convertTurnToMessages t = .ok ms → ∀ m ∈ ms, m.role ≠ Role.assistant) ∧
    (t.userContent = some "" → t.assistantBlocks = .absent →
       convertTurnToMessages t = .ok []) ∧
    (∀ ts : Nat, (liveTurnStart ts "").length = 2) := by
  have hums : (t.userContent = none ∨ t.userContent = some "") → userMsgsOf t = [] := by
    intro hu
    rcases hu with hu | hu <;> simp [userMsgsOf, hu]
  have hroles : ∀ m ∈ userMsgsOf t, m.role = Role.user := by
    intro m hm
    rw [userMsgsOf] at hm
    cases htu : t.userContent with
    | none => rw [htu] at hm; simp at hm
    | some u =>
      rw [htu] at hm
      by_cases hu : u = ""
      · simp [hu] at hm
      · simp only [hu, ne_eq, not_false_eq_true, if_true, List.mem_singleton] at hm
        subst hm
        rfl
  refine ⟨hums, ?_, ?_, ?_, fun ts => rfl⟩
  · intro hu ms hms m hm
    cases hab : t.assistantBlocks with
    | absent =>
      simp only [convertTurnToMessages, hab] at hms
      injection hms with hms
      subst hms
      rw [hums hu] at hm
      simp at hm
    | invalid => simp [convertTurnToMessages, hab] at hms
    | value j =>
      cases j with
      | arr bs =>
        simp only [convertTurnToMessages, hab] at hms
        cases hmc : mapConvert bs with
        | error u => rw [hmc] at hms; exact Except.noConfusion hms
        | ok content =>
          rw [hmc] at hms
          injection hms with hms
          subst hms
          rw [hums hu] at hm
          rw [List.nil_append, List.mem_singleton] at hm
          subst hm
          simp
      | null => simp [convertTurnToMessages, hab] at hms
      | bool x => simp [convertTurnToMessages, hab] at hms
      | num x => simp [convertTurnToMessages, hab] at hms
      | str x => simp [convertTurnToMessages, hab] at hms
      | obj fs => simp [convertTurnToMessages, hab] at hms
  · intro hab ms hms m hm
    simp only [convertTurnToMessages, hab] at hms
    injection hms with hms
    subst hms
    rw [hroles m hm]
    simp
  · intro hu hab
    simp [convertTurnToMessages, hab, hums (Or.inr hu)]

/-- C10 witness: a stored turn with empty user text and no assistant
payload converts to zero messages, while the live turn with the same
empty input renders two. -/
theorem claim10_truthiness_guards_witness :
    userMsgsOf ⟨"t4", some "", .absent⟩ = [] ∧
    convertTurnToMessages ⟨"t4", some "", .absent⟩ = .ok [] ∧
    (liveTurnStart 7 "").length = 2 :=
  ⟨(claim10_truthiness_guards ⟨"t4", some "", .absent⟩).1 (Or.inr rfl),
   (claim10_truthiness_guards ⟨"t4", some "", .absent⟩).2.2.2.1 rfl rfl,
   (claim10_truthiness_guards ⟨"t4", some "", .absent⟩).2.2.2.2 7⟩

end FounderOS
